import Mathlib

/-! Shallow embedding of `funk_svd_mod/fast_methods.py`: the numba `@njit`
kernels of a biased matrix-factorization (funk-SVD) trainer with a
fairness-constrained item-factor update.

Modelling conventions:
* floating-point values are modelled as real numbers (`ℝ`);
* the numpy bias arrays `bu`, `bi` are total maps `ℕ → ℝ` and the factor
  matrices `pu`, `qi` are maps `ℕ → Fin k → ℝ`, where `k` is `n_factors`
  (a row of `pu`/`qi` has exactly `n_factors` entries); validity of the
  user/item indices is the caller's contract, out of scope here;
* the kernels are compiled by the bare `@njit` decorator, i.e. with numba's
  default `error_model='python'`, under which a floating-point division
  whose divisor is zero raises `ZeroDivisionError` instead of producing
  `inf`/`nan`; a division with a zero denominator is therefore modelled as
  `Except.error ()`, and every kernel that may divide returns `Except Unit`;
* the draws of `np.random.normal` in `_initialization` are modelled by an
  explicit per-cell entry source passed as an argument;
* `np.zeros` / `np.random.normal` raise `ValueError` on a negative
  dimension (and succeed, with an empty array, on a zero dimension), so
  `_initialization` returns an `Option`, `none` on a negative dimension.
-/

open scoped Classical

noncomputable section

/-- Mutable state of the model: user/item bias vectors `bu`, `bi` and latent
factor matrices `pu`, `qi`, as threaded through `_run_epoch`. -/
structure FactorState (k : ℕ) where
  bu : ℕ → ℝ
  bi : ℕ → ℝ
  pu : ℕ → Fin k → ℝ
  qi : ℕ → Fin k → ℝ

/-- Dot product of two factor vectors, as in `np.dot` and in the accumulation
loop `pred += pu[user, factor] * qi[item, factor]`. -/
def dotv (k : ℕ) (a b : Fin k → ℝ) : ℝ := ∑ f : Fin k, a f * b f

/-- Euclidean norm `np.sqrt((v ** 2).sum())` of a factor vector. -/
def normv (k : ℕ) (a : Fin k → ℝ) : ℝ := Real.sqrt (∑ f : Fin k, a f ^ 2)

/-- Cosine similarity as computed on lines 129-130 of `fast_methods.py`:
`np.dot(a, b) / (np.sqrt((a ** 2).sum()) * np.sqrt((b ** 2).sum()))`.
(Real division by zero is `0` in Lean; the kernel itself never reaches that
case, since it raises before dividing, see `runEpochRow`.) -/
def cosineSim (k : ℕ) (a b : Fin k → ℝ) : ℝ := dotv k a b / (normv k a * normv k b)

/-- Predicted rating of lines 98-101: `global_mean + bu[user] + bi[item]`
plus the accumulated factor products. -/
def predOf (k : ℕ) (gm : ℝ) (s : FactorState k) (u i : ℕ) : ℝ :=
  gm + s.bu u + s.bi i + ∑ f : Fin k, s.pu u f * s.qi i f

/-- Candidate updated item factor row of line 119:
`new_qi[factor] = qi[item, factor] + lr * (err * puf - reg * qif)`, built
from the pre-update `pu[user]` and `qi[item]`. -/
def newQi (k : ℕ) (gm lr reg : ℝ) (s : FactorState k) (u i : ℕ) (r : ℝ) : Fin k → ℝ :=
  let err := r - predOf k gm s u i
  fun f => s.qi i f + lr * (err * s.pu u f - reg * s.qi i f)

/-- Embedding difference of line 128: `embedding_diff = new_qi - old_qi`,
where `old_qi` is the pre-update row `qi[item]` (line 118). -/
def embedDiff (k : ℕ) (gm lr reg : ℝ) (s : FactorState k) (u i : ℕ) (r : ℝ) : Fin k → ℝ :=
  fun f => newQi k gm lr reg s u i r f - s.qi i f

/-- Fairness commit of lines 135-140: given the cosine similarity and the two
tag flags, choose the row written into `qi[item]`. -/
def fairCommit (k : ℕ) (cos : ℝ) (isWi isMi : Bool) (oldq newq : Fin k → ℝ) : Fin k → ℝ :=
  if cos < 0 ∧ isWi = true then fun f => oldq f - cos * (newq f - oldq f)
  else if 0 < cos ∧ isMi = true then fun f => oldq f + cos * (newq f - oldq f)
  else newq

/-- In-place updates of one training row, lines 106-107 and 118-121 together
with the final write `qi[item] = ...`: `bu[user]` and `bi[item]` get the
regularized SGD step, `pu[user]` is updated from the pre-update `qi[item]`,
and `qi[item]` receives the committed row `qiRow`. -/
def sgdStep (k : ℕ) (gm lr reg : ℝ) (s : FactorState k) (u i : ℕ) (r : ℝ)
    (qiRow : Fin k → ℝ) : FactorState k :=
  let err := r - predOf k gm s u i
  { bu := Function.update s.bu u (s.bu u + lr * (err - reg * s.bu u))
    bi := Function.update s.bi i (s.bi i + lr * (err - reg * s.bi i))
    pu := Function.update s.pu u (fun f => s.pu u f + lr * (err * s.qi i f - reg * s.pu u f))
    qi := Function.update s.qi i qiRow }

/-- Body of the training loop of `_run_epoch` (lines 94-140) for one row
`(user, item, rating)`.  The cosine similarity is initialized to `0.0`
(line 125) and recomputed on lines 129-130 when the item carries a tag; that
division raises `ZeroDivisionError` (numba `error_model='python'`) when
`‖clusters_diff‖ * ‖embedding_diff‖ = 0`, modelled as `Except.error ()`. -/
def runEpochRow (k : ℕ) (gm lr reg : ℝ) (cd : Fin k → ℝ) (isW isM : ℕ → Bool)
    (s : FactorState k) (row : ℕ × ℕ × ℝ) : Except Unit (FactorState k) :=
  let u := row.1
  let i := row.2.1
  let r := row.2.2
  let new_qi := newQi k gm lr reg s u i r
  let cosRes : Except Unit ℝ :=
    if isW i || isM i then
      let ed := embedDiff k gm lr reg s u i r
      let den := normv k cd * normv k ed
      if den = 0 then Except.error () else Except.ok (dotv k cd ed / den)
    else Except.ok 0
  match cosRes with
  | Except.error e => Except.error e
  | Except.ok cosine_sim =>
      Except.ok (sgdStep k gm lr reg s u i r
        (fairCommit k cosine_sim (isW i) (isM i) (fun f => s.qi i f) new_qi))

/-- The kernel `_run_epoch`: one sequential pass over the training rows,
threading the state through `runEpochRow`; an exception aborts the pass. -/
def run_epoch (k : ℕ) (gm lr reg : ℝ) (cd : Fin k → ℝ) (isW isM : ℕ → Bool)
    (X : List (ℕ × ℕ × ℝ)) (s : FactorState k) : Except Unit (FactorState k) :=
  X.foldlM (runEpochRow k gm lr reg cd isW isM) s

/-- Prediction of one validation row, lines 175-185 of `_compute_val_metrics`:
start from `global_mean`, add `bu[user]` when `user > -1`, add `bi[item]`
when `item > -1`, and add the factor dot product when both hold. -/
def valPred (k : ℕ) (gm : ℝ) (bu bi : ℕ → ℝ) (pu qi : ℕ → Fin k → ℝ)
    (user item : ℤ) : ℝ :=
  gm + (if -1 < user then bu user.toNat else 0) + (if -1 < item then bi item.toNat else 0) +
    (if -1 < user ∧ -1 < item then ∑ f : Fin k, pu user.toNat f * qi item.toNat f else 0)

/-- Mean of a numpy vector as numba compiles it: `arr.sum() / arr.size`.
Under the default `error_model='python'` the division raises
`ZeroDivisionError` when the array is empty, modelled as `Except.error ()`. -/
def npMean (l : List ℝ) : Except Unit ℝ :=
  if l.length = 0 then Except.error () else Except.ok (l.sum / l.length)

/-- The kernel `_compute_val_metrics` (lines 171-194): collect the residuals
`rating - pred`, then `loss = np.square(residuals).mean()`,
`rmse = np.sqrt(loss)`, `mae = np.absolute(residuals).mean()`. -/
def compute_val_metrics (k : ℕ) (X_val : List (ℤ × ℤ × ℝ)) (bu bi : ℕ → ℝ)
    (pu qi : ℕ → Fin k → ℝ) (gm : ℝ) : Except Unit (ℝ × ℝ × ℝ) :=
  let residuals := X_val.map (fun row => row.2.2 - valPred k gm bu bi pu qi row.1 row.2.1)
  match npMean (residuals.map fun x => x ^ 2) with
  | Except.error e => Except.error e
  | Except.ok loss =>
      match npMean (residuals.map fun x => |x|) with
      | Except.error e => Except.error e
      | Except.ok mae => Except.ok (loss, Real.sqrt loss, mae)

/-- The kernel `_initialization` (lines 25-54): `bu = np.zeros(n_users)`,
`bi = np.zeros(n_items)`, `pu`, `qi` of shapes `(n_users, n_factors)` and
`(n_items, n_factors)` with entries drawn from `np.random.normal(0, .1, _)`,
here supplied by the explicit per-cell sources `rndP`, `rndQ`.  `np.zeros`
and `np.random.normal` raise `ValueError` on a negative dimension (and
return empty arrays on a zero one), modelled as `none`. -/
def initialization (nUsers nItems nFactors : ℤ) (rndP rndQ : ℕ → ℕ → ℝ) :
    Option (List ℝ × List ℝ × List (List ℝ) × List (List ℝ)) :=
  if nUsers < 0 ∨ nItems < 0 ∨ nFactors < 0 then none
  else some (List.replicate nUsers.toNat 0, List.replicate nItems.toNat 0,
    (List.range nUsers.toNat).map (fun r => (List.range nFactors.toNat).map fun c => rndP r c),
    (List.range nItems.toNat).map (fun r => (List.range nFactors.toNat).map fun c => rndQ r c))

end

section RowLemmas

/-- Evaluation of the row body when the item carries no tag: the cosine stays
at its initialization `0.0`, no division happens, and the unconstrained
candidate row is committed. -/
theorem runEpochRow_untagged (k : ℕ) (gm lr reg : ℝ) (cd : Fin k → ℝ) (isW isM : ℕ → Bool)
    (s : FactorState k) (u i : ℕ) (r : ℝ) (hW : isW i = false) (hM : isM i = false) :
    runEpochRow k gm lr reg cd isW isM s (u, i, r) =
      Except.ok (sgdStep k gm lr reg s u i r (newQi k gm lr reg s u i r)) := by
  unfold runEpochRow
  simp [hW, hM, fairCommit]

/-- Evaluation of the row body when the item is tagged and the cosine
denominator is nonzero: the fairness commit runs on the cosine similarity. -/
theorem runEpochRow_tagged (k : ℕ) (gm lr reg : ℝ) (cd : Fin k → ℝ) (isW isM : ℕ → Bool)
    (s : FactorState k) (u i : ℕ) (r : ℝ)
    (htag : (isW i || isM i) = true)
    (hden : normv k cd * normv k (embedDiff k gm lr reg s u i r) ≠ 0) :
    runEpochRow k gm lr reg cd isW isM s (u, i, r) =
      Except.ok (sgdStep k gm lr reg s u i r
        (fairCommit k (cosineSim k cd (embedDiff k gm lr reg s u i r)) (isW i) (isM i)
          (fun f => s.qi i f) (newQi k gm lr reg s u i r))) := by
  unfold runEpochRow
  simp [htag, hden, cosineSim]

/-- Evaluation of the row body when the item is tagged and the cosine
denominator is zero: the division raises, the row update aborts. -/
theorem runEpochRow_degenerate (k : ℕ) (gm lr reg : ℝ) (cd : Fin k → ℝ) (isW isM : ℕ → Bool)
    (s : FactorState k) (u i : ℕ) (r : ℝ)
    (htag : (isW i || isM i) = true)
    (hden : normv k cd * normv k (embedDiff k gm lr reg s u i r) = 0) :
    runEpochRow k gm lr reg cd isW isM s (u, i, r) = Except.error () := by
  unfold runEpochRow
  simp [htag, hden]

theorem cosineSim_den_zero (k : ℕ) (a b : Fin k → ℝ) (h : normv k a * normv k b = 0) :
    cosineSim k a b = 0 := by
  simp [cosineSim, h]

theorem normv_smul (k : ℕ) (c : ℝ) (v : Fin k → ℝ) :
    normv k (fun f => c * v f) = |c| * normv k v := by
  simp only [normv, mul_pow, ← Finset.mul_sum]
  rw [Real.sqrt_mul (sq_nonneg c), Real.sqrt_sq_eq_abs]

end RowLemmas

/-- C7: on an empty validation set `_compute_val_metrics` fails explicitly —
the mean of zero elements divides by zero and raises `ZeroDivisionError`
under numba's default python error model — rather than silently returning
not-a-number values for `(loss, rmse, mae)`. -/
theorem claim_C7_empty_val_fails (k : ℕ) (bu bi : ℕ → ℝ) (pu qi : ℕ → Fin k → ℝ) (gm : ℝ) :
    compute_val_metrics k [] bu bi pu qi gm = Except.error () := rfl

/-- C8: on an empty training set `_run_epoch` is a no-op: it returns with
`bu`, `bi`, `pu`, `qi` exactly unchanged. -/
theorem claim_C8_empty_epoch_noop (k : ℕ) (gm lr reg : ℝ) (cd : Fin k → ℝ)
    (isW isM : ℕ → Bool) (s : FactorState k) :
    run_epoch k gm lr reg cd isW isM [] s = Except.ok s := rfl

/-- C9 counterexample: with `n_users = 0` — a non-positive dimension — and the
all-zero entry source, `_initialization` succeeds (empty `bu` and `pu`,
one-element `bi` and one-row `qi`), so the claim's clause "for every
non-positive dimension it fails" is false at this input. -/
theorem claim_C9_counterexample :
    initialization 0 1 1 (fun _ _ => 0) (fun _ _ => 0) = some ([], [0], [], [[0]]) := by
  norm_num [initialization, List.range_succ]

/-- C9 amended: `_initialization` succeeds exactly on non-negative dimensions
(zero dimensions give empty arrays) and fails exactly on a negative one; on
success `bu`, `bi` are the all-zero vectors of lengths `n_users`, `n_items`,
and `pu`, `qi` have `n_users` (resp. `n_items`) rows, each of length
`n_factors`. -/
theorem claim_C9_amended (nU nI nF : ℤ) (rndP rndQ : ℕ → ℕ → ℝ) :
    (0 ≤ nU → 0 ≤ nI → 0 ≤ nF →
      (initialization nU nI nF rndP rndQ).map (fun t => t.1) =
          some (List.replicate nU.toNat 0) ∧
      (initialization nU nI nF rndP rndQ).map (fun t => t.2.1) =
          some (List.replicate nI.toNat 0) ∧
      (initialization nU nI nF rndP rndQ).map (fun t => t.2.2.1.map List.length) =
          some (List.replicate nU.toNat nF.toNat) ∧
      (initialization nU nI nF rndP rndQ).map (fun t => t.2.2.2.map List.length) =
          some (List.replicate nI.toNat nF.toNat)) ∧
    (nU < 0 ∨ nI < 0 ∨ nF < 0 → initialization nU nI nF rndP rndQ = none) := by
  constructor
  · intro hU hI hF
    have hcond : ¬(nU < 0 ∨ nI < 0 ∨ nF < 0) := by omega
    rw [initialization, if_neg hcond]
    refine ⟨rfl, rfl, ?_, ?_⟩ <;>
      simp [List.map_map, Function.comp, List.map_const', List.eq_replicate_iff]
  · intro hneg
    rw [initialization, if_pos hneg]

/-- Witness for the amended C9 at concrete inputs: positive-dimension success
with the stated shapes, and failure at a negative dimension. -/
theorem claim_C9_amended_witness :
    (initialization 2 1 3 (fun _ _ => 0) (fun _ _ => 0)).map (fun t => t.1) = some [0, 0] ∧
    (initialization 2 1 3 (fun _ _ => 0) (fun _ _ => 0)).map (fun t => t.2.2.1.map List.length) =
      some [3, 3] ∧
    initialization (-1) 1 1 (fun _ _ => 0) (fun _ _ => 0) = none := by
  have h := (claim_C9_amended 2 1 3 (fun _ _ => 0) (fun _ _ => 0)).1
    (by norm_num) (by norm_num) (by norm_num)
  refine ⟨?_, ?_, (claim_C9_amended (-1) 1 1 (fun _ _ => 0) (fun _ _ => 0)).2 (by norm_num)⟩
  · rw [h.1]; rfl
  · rw [h.2.2.1]; rfl

/-- All-zero model state, used as a concrete input below. -/
def zeroState (k : ℕ) : FactorState k :=
  { bu := fun _ => 0, bi := fun _ => 0, pu := fun _ _ => 0, qi := fun _ _ => 0 }

/-- Concrete state of the end-to-end scenario of spec section 8:
`pu = [[0.1], [0.2]]`, `qi = [[0.1], [0.2]]`, `bu = bi = [0, 0]`. -/
def s8 : FactorState 1 :=
  { bu := fun _ => 0, bi := fun _ => 0,
    pu := fun u _ => if u = 0 then 0.1 else 0.2,
    qi := fun i _ => if i = 0 then 0.1 else 0.2 }

/-- C5: for an item in neither protected set the row update of `_run_epoch`
never faults and commits exactly the unconstrained SGD row
`qi[item] + lr * (err * pu[user] - reg * qi[item])`; the result does not
depend on `clusters_diff`, so no cosine computation affects it. -/
theorem claim_C5_untagged_unconstrained (k : ℕ) (gm lr reg : ℝ) (cd : Fin k → ℝ)
    (isW isM : ℕ → Bool) (s : FactorState k) (u i : ℕ) (r : ℝ)
    (hW : isW i = false) (hM : isM i = false) :
    runEpochRow k gm lr reg cd isW isM s (u, i, r) =
      Except.ok (sgdStep k gm lr reg s u i r (newQi k gm lr reg s u i r)) ∧
    (sgdStep k gm lr reg s u i r (newQi k gm lr reg s u i r)).qi i =
      (fun f => s.qi i f + lr * ((r - predOf k gm s u i) * s.pu u f - reg * s.qi i f)) ∧
    ∀ cd' : Fin k → ℝ, runEpochRow k gm lr reg cd' isW isM s (u, i, r) =
      runEpochRow k gm lr reg cd isW isM s (u, i, r) := by
  refine ⟨runEpochRow_untagged k gm lr reg cd isW isM s u i r hW hM, ?_, fun cd' => ?_⟩
  · simp [sgdStep, newQi]
  · rw [runEpochRow_untagged k gm lr reg cd' isW isM s u i r hW hM,
      runEpochRow_untagged k gm lr reg cd isW isM s u i r hW hM]

/-- Witness for C5 at a concrete input: an untagged item with `qi[0] = [0]`,
`pu[0] = [1]`, `err = 1`, `lr = 1`, `reg = 0` commits `0 + 1 * (1 * 1 - 0) = 1`. -/
theorem claim_C5_witness :
    (runEpochRow 1 0 1 0 (fun _ => 1) (fun _ => false) (fun _ => false)
        { bu := fun _ => 0, bi := fun _ => 0, pu := fun _ _ => 1, qi := fun _ _ => 0 }
        (0, 0, 1)).map (fun t => t.qi 0 0) = Except.ok 1 := by
  have h := claim_C5_untagged_unconstrained 1 0 1 0 (fun _ => 1) (fun _ => false)
    (fun _ => false)
    { bu := fun _ => 0, bi := fun _ => 0, pu := fun _ _ => 1, qi := fun _ _ => 0 }
    0 0 1 rfl rfl
  rw [h.1]
  simp only [Except.map]
  rw [congrFun h.2.1 0]
  norm_num [predOf, Fin.sum_univ_one]

/-- C2: one training-row update of `_run_epoch` computes
`pred = global_mean + bu[user] + bi[item] + dot(pu[user], qi[item])` and
`err = rating - pred`, updates `bu[user]` and `bi[item]` by the regularized
SGD rule, updates `pu[user]` from the pre-update `qi[item]`, and — absent
fairness tags — commits the candidate `new_qi` built from the pre-update
`pu[user]` and `qi[item]`. -/
theorem claim_C2_row_sgd_updates (k : ℕ) (gm lr reg : ℝ) (cd : Fin k → ℝ)
    (isW isM : ℕ → Bool) (s : FactorState k) (u i : ℕ) (r : ℝ) (s' : FactorState k)
    (hok : runEpochRow k gm lr reg cd isW isM s (u, i, r) = Except.ok s') :
    s'.bu u = s.bu u +
      lr * ((r - (gm + s.bu u + s.bi i + ∑ f : Fin k, s.pu u f * s.qi i f)) - reg * s.bu u) ∧
    s'.bi i = s.bi i +
      lr * ((r - (gm + s.bu u + s.bi i + ∑ f : Fin k, s.pu u f * s.qi i f)) - reg * s.bi i) ∧
    s'.pu u = (fun f => s.pu u f +
      lr * ((r - (gm + s.bu u + s.bi i + ∑ f : Fin k, s.pu u f * s.qi i f)) * s.qi i f -
        reg * s.pu u f)) ∧
    (isW i = false → isM i = false →
      s'.qi i = fun f => s.qi i f +
        lr * ((r - (gm + s.bu u + s.bi i + ∑ f : Fin k, s.pu u f * s.qi i f)) * s.pu u f -
          reg * s.qi i f)) := by
  have key : ∃ qiRow : Fin k → ℝ, s' = sgdStep k gm lr reg s u i r qiRow ∧
      (isW i = false → isM i = false → qiRow = newQi k gm lr reg s u i r) := by
    by_cases htag : (isW i || isM i) = true
    · by_cases hden : normv k cd * normv k (embedDiff k gm lr reg s u i r) = 0
      · rw [runEpochRow_degenerate k gm lr reg cd isW isM s u i r htag hden] at hok
        exact Except.noConfusion hok
      · rw [runEpochRow_tagged k gm lr reg cd isW isM s u i r htag hden] at hok
        refine ⟨_, (Except.ok.inj hok).symm, fun hW hM => ?_⟩
        rw [hW, hM] at htag
        simp at htag
    · have hf : (isW i || isM i) = false := Bool.eq_false_iff.mpr htag
      obtain ⟨hW, hM⟩ := Bool.or_eq_false_iff.mp hf
      rw [runEpochRow_untagged k gm lr reg cd isW isM s u i r hW hM] at hok
      exact ⟨_, (Except.ok.inj hok).symm, fun _ _ => rfl⟩
  obtain ⟨qiRow, rfl, hqi⟩ := key
  refine ⟨?_, ?_, ?_, fun hW hM => ?_⟩
  · simp [sgdStep, predOf]
  · simp [sgdStep, predOf]
  · simp [sgdStep, predOf]
  · rw [show (sgdStep k gm lr reg s u i r qiRow).qi i = qiRow from by simp [sgdStep],
      hqi hW hM]
    simp [newQi, predOf]

/-- Witness for C2: the end-to-end scenario of spec section 8 — row
`(user 0, item 1, rating 4.0)`, `global_mean = 3.0`, `lr = 0.1`, `reg = 0`,
no tags — yields `bu[0] = 0.098`, `bi[1] = 0.098`, `pu[0] = [0.1196]`,
`qi[1] = [0.2098]`. -/
theorem claim_C2_witness :
    (runEpochRow 1 3 0.1 0 (fun _ => 0) (fun _ => false) (fun _ => false) s8 (0, 1, 4)).map
        (fun t => (t.bu 0, t.bi 1, t.pu 0 0, t.qi 1 0)) =
      Except.ok (0.098, 0.098, 0.1196, 0.2098) := by
  have hok := runEpochRow_untagged 1 3 0.1 0 (fun _ => 0) (fun _ => false) (fun _ => false)
    s8 0 1 4 rfl rfl
  obtain ⟨h1, h2, h3, h4⟩ := claim_C2_row_sgd_updates 1 3 0.1 0 (fun _ => 0) (fun _ => false)
    (fun _ => false) s8 0 1 4 _ hok
  rw [hok]
  simp only [Except.map]
  rw [h1, h2, congrFun h3 0, congrFun (h4 rfl rfl) 0]
  norm_num [s8, Fin.sum_univ_one]

theorem sgdStep_qi (k : ℕ) (gm lr reg : ℝ) (s : FactorState k) (u i : ℕ) (r : ℝ)
    (qiRow : Fin k → ℝ) : (sgdStep k gm lr reg s u i r qiRow).qi i = qiRow := by
  simp [sgdStep]

/-- Concrete state: `pu[0] = [-1]`, `qi[0] = [0]`, zero biases.  With
`global_mean = 0`, `lr = 1`, `reg = 0`, `rating = 1` it gives `err = 1`,
`new_qi = [-1]`, `embedding_diff = [-1]` and, against `clusters_diff = [1]`,
cosine similarity `-1`. -/
def cState1 : FactorState 1 :=
  { bu := fun _ => 0, bi := fun _ => 0, pu := fun _ _ => -1, qi := fun _ _ => 0 }

theorem cState1_ed : embedDiff 1 0 1 0 cState1 0 0 1 = fun _ => -1 := by
  funext f
  norm_num [embedDiff, newQi, predOf, cState1, Fin.sum_univ_one]

theorem cState1_cos : cosineSim 1 (fun _ => 1) (embedDiff 1 0 1 0 cState1 0 0 1) = -1 := by
  rw [cState1_ed]
  norm_num [cosineSim, dotv, normv, Fin.sum_univ_one, Real.sqrt_one]

theorem cState1_den :
    normv 1 (fun _ => 1) * normv 1 (embedDiff 1 0 1 0 cState1 0 0 1) ≠ 0 := by
  rw [cState1_ed]
  norm_num [normv, Fin.sum_univ_one, Real.sqrt_one]

/-- C1: for a row whose item is tagged in exactly one protected set, the
committed `qi[item]` follows the fairness rule: women-tagged with
`cos < 0` gives `old_qi - cos * embedding_diff`, men-tagged with `cos > 0`
gives `old_qi + cos * embedding_diff`, and in all other cases the candidate
`new_qi`. -/
theorem claim_C1_fairness_rule (k : ℕ) (gm lr reg : ℝ) (cd : Fin k → ℝ)
    (isW isM : ℕ → Bool) (s : FactorState k) (u i : ℕ) (r : ℝ) (s' : FactorState k)
    (htag : (isW i = true ∧ isM i = false) ∨ (isW i = false ∧ isM i = true))
    (hok : runEpochRow k gm lr reg cd isW isM s (u, i, r) = Except.ok s') :
    s'.qi i =
      (if isW i = true ∧ cosineSim k cd (embedDiff k gm lr reg s u i r) < 0 then
        fun f => s.qi i f -
          cosineSim k cd (embedDiff k gm lr reg s u i r) * embedDiff k gm lr reg s u i r f
      else if isM i = true ∧ 0 < cosineSim k cd (embedDiff k gm lr reg s u i r) then
        fun f => s.qi i f +
          cosineSim k cd (embedDiff k gm lr reg s u i r) * embedDiff k gm lr reg s u i r f
      else newQi k gm lr reg s u i r) := by
  have htag' : (isW i || isM i) = true := by
    rcases htag with ⟨h1, h2⟩ | ⟨h1, h2⟩ <;> simp [h1, h2]
  by_cases hden : normv k cd * normv k (embedDiff k gm lr reg s u i r) = 0
  · rw [runEpochRow_degenerate k gm lr reg cd isW isM s u i r htag' hden] at hok
    exact Except.noConfusion hok
  · rw [runEpochRow_tagged k gm lr reg cd isW isM s u i r htag' hden] at hok
    rw [← Except.ok.inj hok, sgdStep_qi]
    rcases htag with ⟨h1, h2⟩ | ⟨h1, h2⟩ <;> simp [fairCommit, embedDiff, h1, h2]

/-- Witness for C1 at a concrete input: a women-tagged item with cosine
similarity `-1` commits `old_qi - cos * embedding_diff = 0 - (-1) * (-1) = -1`. -/
theorem claim_C1_witness :
    (runEpochRow 1 0 1 0 (fun _ => 1) (fun _ => true) (fun _ => false) cState1 (0, 0, 1)).map
        (fun t => t.qi 0 0) = Except.ok (-1) := by
  have hok := runEpochRow_tagged 1 0 1 0 (fun _ => 1) (fun _ => true) (fun _ => false)
    cState1 0 0 1 rfl cState1_den
  have hqi := claim_C1_fairness_rule 1 0 1 0 (fun _ => 1) (fun _ => true) (fun _ => false)
    cState1 0 0 1 _ (Or.inl ⟨rfl, rfl⟩) hok
  rw [hok]
  simp only [Except.map]
  rw [congrFun hqi 0, cState1_cos, cState1_ed]
  norm_num [cState1]

/-- Concrete state: `pu[0] = [1]`, `qi[0] = [0]`, zero biases.  With
`global_mean = 0`, `lr = 1`, `reg = 0`, `rating = 1` it gives
`embedding_diff = [1]` and, against `clusters_diff = [1]`, cosine `1`. -/
def cState2 : FactorState 1 :=
  { bu := fun _ => 0, bi := fun _ => 0, pu := fun _ _ => 1, qi := fun _ _ => 0 }

theorem cState2_ed : embedDiff 1 0 1 0 cState2 0 0 1 = fun _ => 1 := by
  funext f
  norm_num [embedDiff, newQi, predOf, cState2, Fin.sum_univ_one]

theorem cState2_cos : cosineSim 1 (fun _ => 1) (embedDiff 1 0 1 0 cState2 0 0 1) = 1 := by
  rw [cState2_ed]
  norm_num [cosineSim, dotv, normv, Fin.sum_univ_one, Real.sqrt_one]

theorem cState2_den :
    normv 1 (fun _ => 1) * normv 1 (embedDiff 1 0 1 0 cState2 0 0 1) ≠ 0 := by
  rw [cState2_ed]
  norm_num [normv, Fin.sum_univ_one, Real.sqrt_one]

/-- C10: for a row whose item is in both protected dictionaries the update is
still deterministic, with the women rule first: negative cosine commits the
women formula, positive cosine the men formula, zero cosine the candidate
`new_qi`. -/
theorem claim_C10_both_tags (k : ℕ) (gm lr reg : ℝ) (cd : Fin k → ℝ)
    (isW isM : ℕ → Bool) (s : FactorState k) (u i : ℕ) (r : ℝ) (s' : FactorState k)
    (hW : isW i = true) (hM : isM i = true)
    (hok : runEpochRow k gm lr reg cd isW isM s (u, i, r) = Except.ok s') :
    s'.qi i =
      (if cosineSim k cd (embedDiff k gm lr reg s u i r) < 0 then
        fun f => s.qi i f -
          cosineSim k cd (embedDiff k gm lr reg s u i r) * embedDiff k gm lr reg s u i r f
      else if 0 < cosineSim k cd (embedDiff k gm lr reg s u i r) then
        fun f => s.qi i f +
          cosineSim k cd (embedDiff k gm lr reg s u i r) * embedDiff k gm lr reg s u i r f
      else newQi k gm lr reg s u i r) := by
  have htag' : (isW i || isM i) = true := by simp [hW]
  by_cases hden : normv k cd * normv k (embedDiff k gm lr reg s u i r) = 0
  · rw [runEpochRow_degenerate k gm lr reg cd isW isM s u i r htag' hden] at hok
    exact Except.noConfusion hok
  · rw [runEpochRow_tagged k gm lr reg cd isW isM s u i r htag' hden] at hok
    rw [← Except.ok.inj hok, sgdStep_qi]
    simp [fairCommit, embedDiff, hW, hM]

/-- Witness for C10 at a concrete input: an item tagged in both sets with
cosine similarity `1` commits the men formula `old_qi + cos * embedding_diff
= 0 + 1 * 1 = 1`. -/
theorem claim_C10_witness :
    (runEpochRow 1 0 1 0 (fun _ => 1) (fun _ => true) (fun _ => true) cState2 (0, 0, 1)).map
        (fun t => t.qi 0 0) = Except.ok 1 := by
  have hok := runEpochRow_tagged 1 0 1 0 (fun _ => 1) (fun _ => true) (fun _ => true)
    cState2 0 0 1 rfl cState2_den
  have hqi := claim_C10_both_tags 1 0 1 0 (fun _ => 1) (fun _ => true) (fun _ => true)
    cState2 0 0 1 _ rfl rfl hok
  rw [hok]
  simp only [Except.map]
  rw [congrFun hqi 0, cState2_cos, cState2_ed]
  norm_num [cState2]

/-- C3 amended: for a violating tagged update (women-tagged with `cos < 0`,
or men-tagged with `cos > 0`) the committed movement has norm
`|cos| * ‖embedding_diff‖` — an increasing function of `|cos|`: a
near-orthogonal violating update (`|cos|` near 0) is damped close to a
no-op, while a strongly opposite-direction update (`|cos|` near 1) passes
through almost undamped. -/
theorem claim_C3_amended_damping (k : ℕ) (gm lr reg : ℝ) (cd : Fin k → ℝ)
    (isW isM : ℕ → Bool) (s : FactorState k) (u i : ℕ) (r : ℝ) (s' : FactorState k)
    (hok : runEpochRow k gm lr reg cd isW isM s (u, i, r) = Except.ok s')
    (hviol : (isW i = true ∧ cosineSim k cd (embedDiff k gm lr reg s u i r) < 0) ∨
      (isM i = true ∧ 0 < cosineSim k cd (embedDiff k gm lr reg s u i r))) :
    normv k (fun f => s'.qi i f - s.qi i f) =
      |cosineSim k cd (embedDiff k gm lr reg s u i r)| *
        normv k (embedDiff k gm lr reg s u i r) := by
  have hcosne : cosineSim k cd (embedDiff k gm lr reg s u i r) ≠ 0 := by
    rcases hviol with ⟨_, h⟩ | ⟨_, h⟩
    · exact ne_of_lt h
    · exact ne_of_gt h
  have hden : normv k cd * normv k (embedDiff k gm lr reg s u i r) ≠ 0 := fun h =>
    hcosne (cosineSim_den_zero k cd (embedDiff k gm lr reg s u i r) h)
  have htag' : (isW i || isM i) = true := by
    rcases hviol with ⟨h, _⟩ | ⟨h, _⟩ <;> simp [h]
  rw [runEpochRow_tagged k gm lr reg cd isW isM s u i r htag' hden] at hok
  rw [← Except.ok.inj hok]
  rcases hviol with ⟨hW, hlt⟩ | ⟨hM, hgt⟩
  · have hrow : fairCommit k (cosineSim k cd (embedDiff k gm lr reg s u i r)) (isW i) (isM i)
        (fun f => s.qi i f) (newQi k gm lr reg s u i r) =
        fun f => s.qi i f - cosineSim k cd (embedDiff k gm lr reg s u i r) *
          (newQi k gm lr reg s u i r f - s.qi i f) := by
      simp only [fairCommit]
      rw [if_pos ⟨hlt, hW⟩]
    rw [sgdStep_qi, hrow]
    have h2 : (fun f => (s.qi i f - cosineSim k cd (embedDiff k gm lr reg s u i r) *
        (newQi k gm lr reg s u i r f - s.qi i f)) - s.qi i f) =
        fun f => (-cosineSim k cd (embedDiff k gm lr reg s u i r)) *
          embedDiff k gm lr reg s u i r f := by
      funext f
      simp only [embedDiff]
      ring
    rw [h2, normv_smul, abs_neg]
  · have hrow : fairCommit k (cosineSim k cd (embedDiff k gm lr reg s u i r)) (isW i) (isM i)
        (fun f => s.qi i f) (newQi k gm lr reg s u i r) =
        fun f => s.qi i f + cosineSim k cd (embedDiff k gm lr reg s u i r) *
          (newQi k gm lr reg s u i r f - s.qi i f) := by
      simp only [fairCommit]
      rw [if_neg, if_pos ⟨hgt, hM⟩]
      rintro ⟨h, _⟩
      exact absurd h (not_lt.mpr hgt.le)
    rw [sgdStep_qi, hrow]
    have h2 : (fun f => (s.qi i f + cosineSim k cd (embedDiff k gm lr reg s u i r) *
        (newQi k gm lr reg s u i r f - s.qi i f)) - s.qi i f) =
        fun f => cosineSim k cd (embedDiff k gm lr reg s u i r) *
          embedDiff k gm lr reg s u i r f := by
      funext f
      simp only [embedDiff]
      ring
    rw [h2, normv_smul]

/-- Witness for the amended C3 at a concrete input: the violating women-tagged
update of `cState1` has `cos = -1`, `‖embedding_diff‖ = 1`, and committed
movement of norm `|cos| * ‖embedding_diff‖ = 1`. -/
theorem claim_C3_amended_witness :
    (runEpochRow 1 0 1 0 (fun _ => 1) (fun _ => true) (fun _ => false) cState1 (0, 0, 1)).map
        (fun t => normv 1 fun f => t.qi 0 f - cState1.qi 0 f) = Except.ok 1 := by
  have hok := runEpochRow_tagged 1 0 1 0 (fun _ => 1) (fun _ => true) (fun _ => false)
    cState1 0 0 1 rfl cState1_den
  have hmain := claim_C3_amended_damping 1 0 1 0 (fun _ => 1) (fun _ => true) (fun _ => false)
    cState1 0 0 1 _ hok (Or.inl ⟨rfl, by rw [cState1_cos]; norm_num⟩)
  rw [hok]
  simp only [Except.map]
  rw [hmain, cState1_cos, cState1_ed]
  norm_num [normv, Fin.sum_univ_one, Real.sqrt_one]

/-- Concrete state for the C3 counterexample, case A: `pu[0] = [-3/5, 4/5]`,
`qi[0] = [0, 0]`, zero biases.  With `gm = 0`, `lr = 1`, `reg = 0`,
`rating = 1` the violating update has `embedding_diff = [-3/5, 4/5]` and,
against `clusters_diff = [1, 0]`, cosine `-3/5`. -/
noncomputable def cexA : FactorState 2 :=
  { bu := fun _ => 0, bi := fun _ => 0, pu := fun _ => ![-(3 / 5), 4 / 5],
    qi := fun _ => ![0, 0] }

/-- Concrete state for the C3 counterexample, case B: `pu[0] = [-1, 0]`, so
the violating update has `embedding_diff = [-1, 0]` and cosine `-1`. -/
noncomputable def cexB : FactorState 2 :=
  { bu := fun _ => 0, bi := fun _ => 0, pu := fun _ => ![-1, 0],
    qi := fun _ => ![0, 0] }

theorem cexA_ed : embedDiff 2 0 1 0 cexA 0 0 1 = ![-(3 / 5), 4 / 5] := by
  funext f
  fin_cases f <;>
    norm_num [embedDiff, newQi, predOf, cexA, Fin.sum_univ_two,
      Matrix.cons_val_zero, Matrix.cons_val_one, Matrix.head_cons]

theorem cexB_ed : embedDiff 2 0 1 0 cexB 0 0 1 = ![-1, 0] := by
  funext f
  fin_cases f <;>
    norm_num [embedDiff, newQi, predOf, cexB, Fin.sum_univ_two,
      Matrix.cons_val_zero, Matrix.cons_val_one, Matrix.head_cons]

theorem cd2_norm : normv 2 ![1, 0] = 1 := by
  simp only [normv, Fin.sum_univ_two, Matrix.cons_val_zero, Matrix.cons_val_one,
    Matrix.head_cons]
  rw [show ((1 : ℝ) ^ 2 + 0 ^ 2) = 1 by norm_num, Real.sqrt_one]

theorem cexA_norm : normv 2 (embedDiff 2 0 1 0 cexA 0 0 1) = 1 := by
  rw [cexA_ed]
  simp only [normv, Fin.sum_univ_two, Matrix.cons_val_zero, Matrix.cons_val_one,
    Matrix.head_cons]
  rw [show ((-(3 / 5) : ℝ) ^ 2 + (4 / 5) ^ 2) = 1 by norm_num, Real.sqrt_one]

theorem cexB_norm : normv 2 (embedDiff 2 0 1 0 cexB 0 0 1) = 1 := by
  rw [cexB_ed]
  simp only [normv, Fin.sum_univ_two, Matrix.cons_val_zero, Matrix.cons_val_one,
    Matrix.head_cons]
  rw [show ((-1 : ℝ) ^ 2 + 0 ^ 2) = 1 by norm_num, Real.sqrt_one]

theorem cexA_cos : cosineSim 2 ![1, 0] (embedDiff 2 0 1 0 cexA 0 0 1) = -(3 / 5) := by
  rw [cosineSim, cd2_norm, cexA_norm, cexA_ed]
  simp only [dotv, Fin.sum_univ_two, Matrix.cons_val_zero, Matrix.cons_val_one,
    Matrix.head_cons]
  norm_num

theorem cexB_cos : cosineSim 2 ![1, 0] (embedDiff 2 0 1 0 cexB 0 0 1) = -1 := by
  rw [cosineSim, cd2_norm, cexB_norm, cexB_ed]
  simp only [dotv, Fin.sum_univ_two, Matrix.cons_val_zero, Matrix.cons_val_one,
    Matrix.head_cons]
  norm_num

/-- C3 counterexample: two violating women-tagged updates with the same
`‖embedding_diff‖ = 1`.  Case A has `|cos| = 3/5` and committed movement of
norm `3/5`; case B has `|cos| = 1` and committed movement of norm `1`.  The
movement is larger at the larger `|cos|` — increasing, not decreasing — and
at `|cos| = 1` the movement equals `‖embedding_diff‖` (full pass-through,
not "damped close to a no-op"), refuting the claim at these inputs. -/
theorem claim_C3_counterexample :
    cosineSim 2 ![1, 0] (embedDiff 2 0 1 0 cexA 0 0 1) = -(3 / 5) ∧
    cosineSim 2 ![1, 0] (embedDiff 2 0 1 0 cexB 0 0 1) = -1 ∧
    normv 2 (embedDiff 2 0 1 0 cexA 0 0 1) = 1 ∧
    normv 2 (embedDiff 2 0 1 0 cexB 0 0 1) = 1 ∧
    (runEpochRow 2 0 1 0 ![1, 0] (fun _ => true) (fun _ => false) cexA (0, 0, 1)).map
        (fun t => normv 2 fun f => t.qi 0 f - cexA.qi 0 f) = Except.ok (3 / 5) ∧
    (runEpochRow 2 0 1 0 ![1, 0] (fun _ => true) (fun _ => false) cexB (0, 0, 1)).map
        (fun t => normv 2 fun f => t.qi 0 f - cexB.qi 0 f) = Except.ok 1 ∧
    (3 : ℝ) / 5 < 1 := by
  have hdenA : normv 2 ![1, 0] * normv 2 (embedDiff 2 0 1 0 cexA 0 0 1) ≠ 0 := by
    rw [cd2_norm, cexA_norm]; norm_num
  have hdenB : normv 2 ![1, 0] * normv 2 (embedDiff 2 0 1 0 cexB 0 0 1) ≠ 0 := by
    rw [cd2_norm, cexB_norm]; norm_num
  refine ⟨cexA_cos, cexB_cos, cexA_norm, cexB_norm, ?_, ?_, by norm_num⟩
  · rw [runEpochRow_tagged 2 0 1 0 ![1, 0] (fun _ => true) (fun _ => false) cexA 0 0 1
      rfl hdenA]
    show Except.ok (normv 2 fun f =>
      (sgdStep 2 0 1 0 cexA 0 0 1
        (fairCommit 2 (cosineSim 2 ![1, 0] (embedDiff 2 0 1 0 cexA 0 0 1)) true false
          (fun g => cexA.qi 0 g) (newQi 2 0 1 0 cexA 0 0 1))).qi 0 f - cexA.qi 0 f) =
      Except.ok (3 / 5)
    rw [Except.ok.injEq]
    have hrow : (fun f =>
        (sgdStep 2 0 1 0 cexA 0 0 1
          (fairCommit 2 (cosineSim 2 ![1, 0] (embedDiff 2 0 1 0 cexA 0 0 1)) true false
            (fun g => cexA.qi 0 g) (newQi 2 0 1 0 cexA 0 0 1))).qi 0 f - cexA.qi 0 f) =
        ![-(9 / 25), 12 / 25] := by
      funext f
      rw [sgdStep_qi, cexA_cos]
      fin_cases f <;>
        norm_num [fairCommit, newQi, predOf, cexA, Fin.sum_univ_two,
          Matrix.cons_val_zero, Matrix.cons_val_one, Matrix.head_cons]
    rw [hrow]
    simp only [normv, Fin.sum_univ_two, Matrix.cons_val_zero, Matrix.cons_val_one,
      Matrix.head_cons]
    rw [show ((-(9 / 25) : ℝ) ^ 2 + (12 / 25) ^ 2) = (3 / 5) ^ 2 by norm_num,
      Real.sqrt_sq (by norm_num)]
  · rw [runEpochRow_tagged 2 0 1 0 ![1, 0] (fun _ => true) (fun _ => false) cexB 0 0 1
      rfl hdenB]
    show Except.ok (normv 2 fun f =>
      (sgdStep 2 0 1 0 cexB 0 0 1
        (fairCommit 2 (cosineSim 2 ![1, 0] (embedDiff 2 0 1 0 cexB 0 0 1)) true false
          (fun g => cexB.qi 0 g) (newQi 2 0 1 0 cexB 0 0 1))).qi 0 f - cexB.qi 0 f) =
      Except.ok 1
    rw [Except.ok.injEq]
    have hrow : (fun f =>
        (sgdStep 2 0 1 0 cexB 0 0 1
          (fairCommit 2 (cosineSim 2 ![1, 0] (embedDiff 2 0 1 0 cexB 0 0 1)) true false
            (fun g => cexB.qi 0 g) (newQi 2 0 1 0 cexB 0 0 1))).qi 0 f - cexB.qi 0 f) =
        ![-1, 0] := by
      funext f
      rw [sgdStep_qi, cexB_cos]
      fin_cases f <;>
        norm_num [fairCommit, newQi, predOf, cexB, Fin.sum_univ_two,
          Matrix.cons_val_zero, Matrix.cons_val_one, Matrix.head_cons]
    rw [hrow]
    simp only [normv, Fin.sum_univ_two, Matrix.cons_val_zero, Matrix.cons_val_one,
      Matrix.head_cons]
    rw [show ((-1 : ℝ) ^ 2 + 0 ^ 2) = 1 by norm_num, Real.sqrt_one]

/-- C4 (code bug): at a degenerate input — `lr = 0`, so `embedding_diff` is
the zero vector — a women-tagged item makes lines 129-130 of
`fast_methods.py` divide by a zero denominator; under numba's default
`error_model='python'` that raises `ZeroDivisionError`.  The row update
faults instead of defining the cosine as 0 and committing `new_qi`. -/
theorem claim_C4_degenerate_faults :
    runEpochRow 1 0 0 0 (fun _ => 1) (fun _ => true) (fun _ => false)
      (zeroState 1) (0, 0, 1) = Except.error () := by
  apply runEpochRow_degenerate 1 0 0 0 (fun _ => 1) (fun _ => true) (fun _ => false)
    (zeroState 1) 0 0 1 rfl
  have hed : embedDiff 1 0 0 0 (zeroState 1) 0 0 1 = fun _ => 0 := by
    funext f
    norm_num [embedDiff, newQi, predOf, zeroState, Fin.sum_univ_one]
  rw [hed]
  norm_num [normv, Fin.sum_univ_one, Real.sqrt_zero, Real.sqrt_one]

/-- C6: the validation prediction includes `bu[user]` only if `user ≥ 0`
(otherwise it does not depend on `bu`, `pu` at all), `bi[item]` only if
`item ≥ 0` (otherwise it does not depend on `bi`, `qi`), and in particular a
row with user `-1` and item `≥ 0` predicts exactly `global_mean + bi[item]`:
its residual is `rating - global_mean - bi[item]`, and on the one-row
validation set the metrics are built from that residual. -/
theorem claim_C6_val_sentinel (k : ℕ) (gm : ℝ) (bu bi : ℕ → ℝ) (pu qi : ℕ → Fin k → ℝ)
    (user item : ℤ) (rating : ℝ) :
    (user < 0 → ∀ bu' : ℕ → ℝ, ∀ pu' : ℕ → Fin k → ℝ,
      valPred k gm bu' bi pu' qi user item = valPred k gm bu bi pu qi user item) ∧
    (item < 0 → ∀ bi' : ℕ → ℝ, ∀ qi' : ℕ → Fin k → ℝ,
      valPred k gm bu bi' pu qi' user item = valPred k gm bu bi pu qi user item) ∧
    (0 ≤ item →
      rating - valPred k gm bu bi pu qi (-1) item = rating - gm - bi item.toNat) ∧
    (0 ≤ item →
      compute_val_metrics k [(-1, item, rating)] bu bi pu qi gm =
        Except.ok ((rating - gm - bi item.toNat) ^ 2,
          Real.sqrt ((rating - gm - bi item.toNat) ^ 2), |rating - gm - bi item.toNat|)) := by
  refine ⟨fun huser bu' pu' => ?_, fun hitem bi' qi' => ?_, fun hitem => ?_, fun hitem => ?_⟩
  · simp [valPred, show ¬(-1 < user) from by omega]
  · simp [valPred, show ¬(-1 < item) from by omega]
  · simp [valPred, show (-1 : ℤ) < item from by omega, show ¬((-1 : ℤ) < -1) from by omega]
    ring
  · have hres : valPred k gm bu bi pu qi (-1) item = gm + bi item.toNat := by
      simp [valPred, show (-1 : ℤ) < item from by omega, show ¬((-1 : ℤ) < -1) from by omega]
    have hx : rating - (gm + bi item.toNat) = rating - gm - bi item.toNat := by ring
    simp only [compute_val_metrics, List.map_cons, List.map_nil, hres, hx, npMean,
      List.length_cons, List.length_nil, List.sum_cons, List.sum_nil]
    norm_num

/-- Witness for C6 at a concrete input: user `-1`, item `5`, rating `7`,
`global_mean = 1`, `bi[5] = 2`: the residual is `7 - 1 - 2 = 4` and the
one-row metrics are `(16, 4, 4)`. -/
theorem claim_C6_witness :
    7 - valPred 0 1 (fun _ => 0) (fun _ => 2) (fun _ => ![]) (fun _ => ![]) (-1) 5 = 4 ∧
    compute_val_metrics 0 [(-1, 5, 7)] (fun _ => 0) (fun _ => 2) (fun _ => ![])
      (fun _ => ![]) 1 = Except.ok (16, 4, 4) := by
  have h := claim_C6_val_sentinel 0 1 (fun _ => 0) (fun _ => 2) (fun _ => ![])
    (fun _ => ![]) (-1) 5 7
  constructor
  · rw [h.2.2.1 (by norm_num)]
    norm_num
  · rw [h.2.2.2 (by norm_num)]
    have he : (7 : ℝ) - 1 - (fun _ : ℕ => (2 : ℝ)) (Int.toNat 5) = 4 := by norm_num
    rw [he, show ((4 : ℝ) ^ 2) = 16 from by norm_num,
      show Real.sqrt 16 = 4 from by
        rw [show (16 : ℝ) = 4 ^ 2 from by norm_num, Real.sqrt_sq (by norm_num)]]
    norm_num

/-- A one-row training set makes `_run_epoch` behave exactly as its loop body
`runEpochRow` on that row, so the per-row theorems above speak about
`run_epoch` itself. -/
theorem run_epoch_singleton (k : ℕ) (gm lr reg : ℝ) (cd : Fin k → ℝ) (isW isM : ℕ → Bool)
    (s : FactorState k) (row : ℕ × ℕ × ℝ) :
    run_epoch k gm lr reg cd isW isM [row] s = runEpochRow k gm lr reg cd isW isM s row := by
  cases h : runEpochRow k gm lr reg cd isW isM s row <;>
    simp [run_epoch, List.foldlM, h]
